import Mathlib

/-!
Verification of the discursive-image pipeline (dic + sgtr) against its
specification.  The Go sources are shallowly embedded: pure functions become
Lean functions, channel/loop code becomes explicit state passing over event
traces, machine integers become Nat/Int, external HTTP calls become oracle
parameters, and operations that may panic or loop forever return an explicit
outcome constructor (fuel models the unbounded Go loop: a result of
`fuelOut` for every fuel value means the loop never terminates).
-/

/- ===================== Image search data model (dic/google/search.go) ===================== -/

/-- Embeds `google.ISR` (search.go lines 57-64); only the fields the annotation
pipeline reads are kept (`Link` is the load-bearing one). -/
structure ISR where
  link : String
  mime : String
  displayLink : String
  deriving DecidableEq, Repr

/- ===================== Liveness probe (dic/cmd/main.go, discard) ===================== -/

/-- The observable part of an HTTP HEAD response: status code, and the value
returned by `resp.Header.Get("content-type")` (empty string when the header is
absent). -/
structure HeadResponse where
  statusCode : Int
  contentType : String
  deriving DecidableEq, Repr

/-- `listHasPref l sub` : `sub` is a prefix of `l` (character lists). -/
def listHasPref : List Char → List Char → Bool
  | _, [] => true
  | [], _ :: _ => false
  | c :: cs, d :: ds => c == d && listHasPref cs ds

/-- `listContainsSub l sub` : `sub` occurs as a contiguous run inside `l`.
Embeds the semantics of Go `strings.Contains`. -/
def listContainsSub : List Char → List Char → Bool
  | [], sub => sub.isEmpty
  | c :: cs, sub => listHasPref (c :: cs) sub || listContainsSub cs sub

/-- Go `strings.Contains s sub`. -/
def strContains (s sub : String) : Bool :=
  listContainsSub s.data sub.data

namespace dic

/-- Embeds `discard` (dic/cmd/main.go lines 80-92).  The HEAD call is an
oracle input: `none` models a failed request (`err != nil`), `some r` a
response.  (Namespaced to keep the Go name without clashing with core's
`discard`.) -/
def discard (resp : Option HeadResponse) : Bool :=
  match resp with
  | none => true
  | some r =>
    if 400 ≤ r.statusCode then true
    else !(strContains r.contentType "image")

end dic

/- ===================== Image ring (dic/cmd/main.go, imageRing) ===================== -/

/-- Embeds `touchedImage` (dic/cmd/main.go lines 65-69). -/
structure TouchedImage where
  image : ISR
  checked : Bool
  valid : Bool
  deriving DecidableEq, Repr

/-- Embeds `imageRing` (dic/cmd/main.go lines 71-74). -/
structure ImageRing where
  all : List TouchedImage
  index : Nat
  deriving DecidableEq, Repr

/-- Outcome of the scan loop inside `imageRing.next` (lines 104-114).
`panic` models the Go runtime panic on `% 0` (integer division by zero);
`fuelOut` is returned when the given fuel is exhausted, so proving `fuelOut`
for every fuel shows the Go loop never terminates. -/
inductive LoopOut where
  | found (idx : Nat) (isr : ISR) (all : List TouchedImage)
  | notFound (all : List TouchedImage)
  | panic
  | fuelOut
  deriving DecidableEq, Repr

/-- Embeds the `for i := ir.index; i < len(ir.all); i = (i + 1) % (len(ir.all) - 1)`
loop of `imageRing.next` (dic/cmd/main.go lines 104-114), including the lazy
probe `if !ti.checked { ti.valid = !discard(ti.image.Link) }`.  `head` is the
HEAD-request oracle fed to `discard`.  Entry mutation through the Go pointer is
modelled by threading the updated list. -/
def nextLoop (head : String → Option HeadResponse) :
    Nat → Nat → List TouchedImage → LoopOut
  | 0, _, _ => .fuelOut
  | fuel + 1, i, all =>
    if h : i < all.length then
      let ti := all.get ⟨i, h⟩
      let ti2 := if ti.checked then ti else { ti with valid := !(dic.discard (head ti.image.link)) }
      let all2 := all.set i ti2
      if ti2.valid then .found i ti2.image all2
      else
        match all2.length - 1 with
        | 0 => .panic
        | m + 1 => nextLoop head fuel ((i + 1) % (m + 1)) all2
    else .notFound all

/-- Outcome of `imageRing.next` (dic/cmd/main.go lines 94-120). -/
inductive NextOut where
  | missEmpty
  | miss (r : ImageRing)
  | image (isr : ISR) (r : ImageRing)
  | panic
  | fuelOut
  deriving DecidableEq, Repr

/-- Embeds `imageRing.next` (dic/cmd/main.go lines 94-120): empty ring returns
nil; otherwise scan from the cursor; on success the cursor becomes
`(index + 1) % (len(ir.all) - 1)` — with a Go panic when the modulus is 0. -/
def ringNext (head : String → Option HeadResponse) (fuel : Nat) (r : ImageRing) : NextOut :=
  if r.all.length = 0 then .missEmpty
  else
    match nextLoop head fuel r.index r.all with
    | .fuelOut => .fuelOut
    | .panic => .panic
    | .notFound all2 => .miss ⟨all2, r.index⟩
    | .found idx isr all2 =>
      match all2.length - 1 with
      | 0 => .panic
      | m + 1 => .image isr ⟨all2, (idx + 1) % (m + 1)⟩

/- ===================== Ring cache (dic/cmd/main.go, ringCache) ===================== -/

/-- The `map[string]*imageRing` of `ringCache` (dic/cmd/main.go lines 122-125),
modelled as an association list with at most one binding per key. -/
def Cache : Type := List (String × ImageRing)

/-- Map lookup. -/
def cacheFind : Cache → String → Option ImageRing
  | [], _ => none
  | (k2, r) :: rest, k => if k2 = k then some r else cacheFind rest k

/-- Map deletion (`delete(c.m, k)`). -/
def cacheErase : Cache → String → Cache
  | [], _ => []
  | (k2, r) :: rest, k =>
    if k2 = k then cacheErase rest k else (k2, r) :: cacheErase rest k

/-- Map insertion/replacement (`c.m[k] = ring`). -/
def cacheUpdate : Cache → String → ImageRing → Cache
  | [], k, r => [(k, r)]
  | (k2, r2) :: rest, k, r =>
    if k2 = k then (k, r) :: rest else (k2, r2) :: cacheUpdate rest k r

/-- Outcome of `ringCache.next` (dic/cmd/main.go lines 133-148), carrying the
cache state after the call. -/
inductive CacheNextOut where
  | miss (c : Cache)
  | hit (isr : ISR) (c : Cache)
  | panic
  | fuelOut

/-- Embeds `ringCache.next` (dic/cmd/main.go lines 133-148): no entry is a
miss; a nil answer from the ring deletes the (mutated) ring and is a miss; an
image answer keeps the mutated ring and is a hit. -/
def cacheNext (head : String → Option HeadResponse) (fuel : Nat) (c : Cache) (k : String) :
    CacheNextOut :=
  match cacheFind c k with
  | none => .miss c
  | some r =>
    match ringNext head fuel r with
    | .missEmpty => .miss (cacheErase c k)
    | .miss _ => .miss (cacheErase c k)
    | .panic => .panic
    | .fuelOut => .fuelOut
    | .image isr r2 => .hit isr (cacheUpdate c k r2)

/-- Embeds `ringCache.set` (dic/cmd/main.go lines 150-164): fresh ring from the
results, all flags false, cursor 0. -/
def cacheSet (c : Cache) (k : String) (results : List ISR) : Cache :=
  cacheUpdate c k ⟨results.map (fun v => ⟨v, false, false⟩), 0⟩

/- ===================== Annotation pipeline (dic/cmd/main.go, ImageRequest) ===================== -/

/-- Result of `ImageRequest.Run` (dic/cmd/main.go lines 176-212): the error
slot `r.err`, the (possibly extended) record `r.rec`, and the cache state.
Error messages are abbreviated tags of the `fmt.Errorf` texts. -/
structure RunOut where
  err : Option String
  row : List String
  cache : Cache

/-- Embeds `ImageRequest.Run` (dic/cmd/main.go lines 176-212).  `search` is
the remote image-search oracle (`SearchImages`); `head`/`fuel` drive the ring
probes.  `none` is returned when the ring code panics or never terminates. -/
def runImageRequest (head : String → Option HeadResponse) (fuel : Nat)
    (search : String → Except String (List ISR))
    (cache : Cache) (c : Nat) (row : List String) : Option RunOut :=
  if h : c < row.length then
    let k := row.get ⟨c, h⟩
    match cacheNext head fuel cache k with
    | .panic => none
    | .fuelOut => none
    | .hit isr c2 => some ⟨none, row ++ [isr.link], c2⟩
    | .miss c2 =>
      match search k with
      | .error e => some ⟨some e, row, c2⟩
      | .ok items =>
        if items.length = 0 then some ⟨some "no results", row ++ [""], c2⟩
        else
          let c3 := cacheSet c2 k items
          match cacheNext head fuel c3 k with
          | .panic => none
          | .fuelOut => none
          | .hit isr c4 => some ⟨none, row ++ [isr.link], c4⟩
          | .miss c4 => some ⟨some "cache inconsistency", row ++ [""], c4⟩
  else some ⟨some "column out of range", row, cache⟩

/-- One work item on the completion channel `tx`: the input-order position at
which the dispatcher enqueued it, and the `err`/`rec` state its worker left
behind (`ImageRequest` fields, dic/cmd/main.go lines 166-174). -/
structure ReqItem where
  pos : Nat
  err : Option String
  row : List String

/-- Embeds the consumer `enqueueImageRequest` (dic/cmd/main.go lines 219-235):
walk the queue in order, await each item (the item already carries its final
`err`/`rec`), skip items whose `err` is set (log only), write the rest, and
abort on a writer error (`writeOk` is the csv-writer oracle).  The returned
list is the sequence of records written to stdout, tagged with their input
positions. -/
def enqueueOut (writeOk : List String → Bool) : List ReqItem → List (Nat × List String)
  | [] => []
  | r :: rest =>
    match r.err with
    | some _ => enqueueOut writeOk rest
    | none =>
      if writeOk r.row then (r.pos, r.row) :: enqueueOut writeOk rest
      else []

/-- Embeds the dispatcher loop of `handleSSearch` (dic/cmd/main.go lines
253-298): record `p` is sent on `tx` (in input order, before its worker is
spawned) as the item at queue position `p`.  `results p` abstracts the
`err`/`rec` pair the worker for record `p` eventually produces — any
scheduling of the concurrent lookups is some such function. -/
def dispatch (results : Nat → Option String × List String) (n : Nat) : List ReqItem :=
  (List.range n).map fun p => ⟨p, (results p).1, (results p).2⟩

/- ===================== Time-offset accounting (sgtr google/transcribe, part_011) ===================== -/

/-- `inSampleRate` (part_011 line 43). -/
def inSampleRate : Nat := 16000

/-- `inBitDepth` (part_011 line 46). -/
def inBitDepth : Nat := 16

/-- `inBitrate = inSampleRate * inBitDepth * 1` (part_011 line 34). -/
def inBitrate : Nat := inSampleRate * inBitDepth * 1

/-- Embeds `computeTimeshiftOffset` (part_011 lines 273-288), in nanoseconds.
The Go code divides `bytesSent` by the byte rate in float64, prints the result
with `%f` (six decimals, i.e. microsecond precision) and re-parses it with
`time.ParseDuration`.  This is modelled exactly over the integers: seconds
rounded to the nearest microsecond (half away from zero), times 1000 ns.  The
`byteRate == 0` and `secs == 0` early returns are kept; the unreachable
`ParseDuration` error branch is dropped. -/
def computeTimeshiftOffset (bytesSent : Nat) : Int :=
  let byteRate := inBitrate / 8
  if byteRate = 0 then 0
  else if bytesSent = 0 then 0
  else (((2 * bytesSent * 1000000 + byteRate) / (2 * byteRate)) * 1000 : Nat)

/- ===================== Transcript records (sgenc, external) ===================== -/

/-- Embeds `sgenc.TrRec`: a recognized word with start/end offsets
(nanoseconds, `time.Duration`). -/
structure TrRec where
  startTime : Int
  endTime : Int
  textRaw : String
  deriving DecidableEq, Repr

/-- Embeds `sgenc.StrTrRec`: `TrRec` plus streaming flags (the embedded
`TrRec` field is named `tr` here). -/
structure StrTrRec where
  tr : TrRec
  isFinal : Bool
  confidence : Rat
  deriving DecidableEq, Repr

/-- Modelled from the spec: `sgenc.StrTrRec.ShiftTime` lives in the external
`sgenc` module, not in this repository; per the spec, shifting by the
timeshift offset adds it to both `start` and `end` ("adding
`timeshift_offset` yields logical-stream-relative times"). -/
def shiftTime (off : Int) (r : StrTrRec) : StrTrRec :=
  { r with tr := { r.tr with startTime := r.tr.startTime + off,
                             endTime := r.tr.endTime + off } }

/- ===================== Session loop (part_011, stream.sessLoop) ===================== -/

/-- One observable event inside the `select` of `stream.sessLoop` (part_011
lines 320-358).  `deadline` is `_ctx.Done()` firing (timer expiry or the
`cancel()` triggered by the sent-audio check), carrying whether `CloseSend`
succeeds and the tail of records still delivered on `sess.rx` before it
closes; `result` is a record arriving on `sess.rx`; `rxClosed`/`txClosed` are
the channel-closed branches; `write n ok` is a producer buffer of `n` bytes
whose `sendAudio` succeeds iff `ok`. -/
inductive SessEvent where
  | deadline (closeSendOk : Bool) (tail : List StrTrRec)
  | result (rr : StrTrRec)
  | rxClosed
  | write (n : Nat) (ok : Bool)
  | txClosed

/-- How one `sessLoop` call returned. -/
inductive SessExit where
  | outer          -- deadline branch: drained the tail, returned ctx.Err()
  | closeSendErr   -- deadline branch: CloseSend failed (fatal)
  | rxClosedErr    -- session rx closed
  | txClosedErr    -- stream tx closed
  | sendErr        -- sendAudio failed
  deriving DecidableEq, Repr

/-- Embeds `stream.sessLoop` (part_011 lines 298-359) over an event trace.
State: the stream's `timeshiftOffset` and the session's `bytesSent`.  Returns
the records emitted on `s.rx` (each shifted by `txRecognitionResults`, part_011
lines 361-366, with the loop-entry offset — the offset only changes in the
deferred update), the `timeshiftOffset` after the deferred
`+= computeTimeshiftOffset(sess.bytesSent)` runs, and the exit kind; `none`
when the trace ends with the loop still blocked in `select`. -/
def sessLoop : Int → Nat → List SessEvent → Option (List StrTrRec × Int × SessExit)
  | _, _, [] => none
  | off, sent, SessEvent.deadline ok tail :: _ =>
    if ok then
      some (tail.map (shiftTime off), off + computeTimeshiftOffset sent, SessExit.outer)
    else
      some ([], off + computeTimeshiftOffset sent, SessExit.closeSendErr)
  | off, sent, SessEvent.result rr :: rest =>
    match sessLoop off sent rest with
    | none => none
    | some (es, off2, x) => some (shiftTime off rr :: es, off2, x)
  | off, sent, SessEvent.rxClosed :: _ =>
    some ([], off + computeTimeshiftOffset sent, SessExit.rxClosedErr)
  | off, sent, SessEvent.write n ok :: rest =>
    if ok then sessLoop off (sent + n) rest
    else some ([], off + computeTimeshiftOffset sent, SessExit.sendErr)
  | off, sent, SessEvent.txClosed :: _ =>
    some ([], off + computeTimeshiftOffset sent, SessExit.txClosedErr)

/-- Events the loop absorbs without leaving: results forwarded, successful
producer writes. -/
def benign : SessEvent → Bool
  | .result _ => true
  | .write _ ok => ok
  | _ => false

/-- Records forwarded to `s.rx` for a run of benign events, each shifted by
the loop-entry offset. -/
def emitsOf (off : Int) : List SessEvent → List StrTrRec
  | [] => []
  | SessEvent.result rr :: rest => shiftTime off rr :: emitsOf off rest
  | _ :: rest => emitsOf off rest

/-- Bytes added to `bytesSent` by a run of events. -/
def writtenOf : List SessEvent → Nat
  | [] => 0
  | SessEvent.write n _ :: rest => n + writtenOf rest
  | _ :: rest => writtenOf rest

/- ===================== Speech result mappers (part_011) ===================== -/

/-- Embeds `ptypes/duration.Duration` (seconds + nanos). -/
structure GoDuration where
  seconds : Int
  nanos : Int
  deriving DecidableEq, Repr

/-- Embeds `mapDuration` (part_011 lines 54-57): nanoseconds. -/
def mapDuration (d : GoDuration) : Int :=
  d.seconds * 1000 * 1000 * 1000 + d.nanos

/-- Embeds `speechpb.WordInfo` (the fields read by the mappers). -/
structure WordInfo where
  startTime : GoDuration
  endTime : GoDuration
  word : String
  deriving DecidableEq, Repr

/-- Embeds `speechpb.SpeechRecognitionAlternative` (fields read by the
mappers; `Confidence` is a float32, modelled as a rational). -/
structure SpeechAlternative where
  words : List WordInfo
  confidence : Rat
  deriving DecidableEq, Repr

/-- Embeds `speechpb.StreamingRecognitionResult` (fields read by the stream
mapper). -/
structure StreamingRecognitionResult where
  alternatives : List SpeechAlternative
  isFinal : Bool
  deriving DecidableEq, Repr

/-- Embeds the batch mapper `mapSpeechResults` (part_011 lines 59-78): an
empty alternatives list is guarded (`len(alts) == 0` returns an empty slice);
otherwise the first alternative's words are mapped, skipping empty words. -/
def mapSpeechResults (alts : List SpeechAlternative) : List TrRec :=
  match alts with
  | [] => []
  | alt :: _ =>
    (alt.words.filter (fun w => !(w.word == ""))).map
      (fun w => ⟨mapDuration w.startTime, mapDuration w.endTime, w.word⟩)

/-- Embeds the stream mapper `mapStreamSpeechResult` (part_011 lines 439-454):
`alt := r.Alternatives[0]` is an unguarded index, so an empty alternatives
list is a Go index-out-of-range panic, modelled as `none`.  No empty-word
filtering is performed here. -/
def mapStreamSpeechResult (r : StreamingRecognitionResult) : Option (List StrTrRec) :=
  match r.alternatives with
  | [] => none
  | alt :: _ =>
    some (alt.words.map (fun w =>
      ⟨⟨mapDuration w.startTime, mapDuration w.endTime, w.word⟩, r.isFinal, alt.confidence⟩))

/-- Embeds `mapStreamSpeechResults` (part_011 lines 431-437), the per-response
loop run by the session listener `trSess.listenTr`: a panic in any element
propagates (the listener task dies). -/
def mapStreamSpeechResults (results : List StreamingRecognitionResult) :
    Option (List StrTrRec) :=
  match results with
  | [] => some []
  | r :: rest =>
    match mapStreamSpeechResult r, mapStreamSpeechResults rest with
    | some a, some b => some (a ++ b)
    | _, _ => none

/- ===================== Concrete inputs used by the theorems ===================== -/

/-- A concrete search result. -/
def isrA : ISR := ⟨"http://x/a", "image/jpeg", "x"⟩

/-- A concrete search result. -/
def isrB : ISR := ⟨"http://x/b", "image/jpeg", "x"⟩

/-- A concrete search result. -/
def isrC : ISR := ⟨"http://x/c", "image/jpeg", "x"⟩

/-- HEAD oracle: every request fails (every probe discards). -/
def headNone : String → Option HeadResponse := fun _ => none

/-- HEAD oracle: every request returns 200 with an image content type. -/
def headOK : String → Option HeadResponse := fun _ => some ⟨200, "image/jpeg"⟩

/-- A ring body of three entries, all already checked and valid. -/
def allValid3 : List TouchedImage :=
  [⟨isrA, true, true⟩, ⟨isrB, true, true⟩, ⟨isrC, true, true⟩]

/-- A ring body of one unchecked, invalid entry. -/
def allDead1 : List TouchedImage := [⟨isrA, false, false⟩]

/-- A ring body of two unchecked, invalid entries. -/
def allDead2 : List TouchedImage := [⟨isrA, false, false⟩, ⟨isrB, false, false⟩]

/-- A ring body of two fresh (unchecked) entries, as built by `cacheSet`. -/
def allUnchecked2 : List TouchedImage := [⟨isrA, false, false⟩, ⟨isrB, false, false⟩]

/-- `allUnchecked2` after one `ringNext` under `headOK`: the touched entry has
`valid := true` but `checked` is still `false`. -/
def allTouched2 : List TouchedImage := [⟨isrA, false, true⟩, ⟨isrB, false, false⟩]

/-- A concrete streaming transcript record. -/
def rr0 : StrTrRec := ⟨⟨0, 500000000, "ciao"⟩, true, 1⟩

/-- A concrete streaming transcript record (a tail word). -/
def rr1 : StrTrRec := ⟨⟨4990000000, 5000000000, "mondo"⟩, true, 1⟩

/- ===================== Helper lemmas ===================== -/

theorem cacheFind_update_self (c : Cache) (k : String) (r : ImageRing) :
    cacheFind (cacheUpdate c k r) k = some r := by
  induction c with
  | nil => simp [cacheUpdate, cacheFind]
  | cons hd tl ih =>
    obtain ⟨k2, r2⟩ := hd
    by_cases h : k2 = k
    · simp [cacheUpdate, h, cacheFind]
    · simp [cacheUpdate, h, cacheFind, ih]

theorem cacheFind_erase_self (c : Cache) (k : String) :
    cacheFind (cacheErase c k) k = none := by
  induction c with
  | nil => rfl
  | cons hd tl ih =>
    obtain ⟨k2, r2⟩ := hd
    by_cases h : k2 = k
    · simp [cacheErase, h, ih]
    · simp [cacheErase, h, cacheFind, ih]

/-- The all-invalid two-entry scan never leaves index 0: each step re-probes
entry 0 (its `checked` flag is never raised) and the index update
`(0 + 1) % (2 - 1)` is again 0, so every amount of fuel is exhausted. -/
theorem nextLoop_allDead2 (fuel : Nat) :
    nextLoop headNone fuel 0 allDead2 = LoopOut.fuelOut := by
  induction fuel with
  | zero => rfl
  | succ n ih => exact ih

theorem enqueueOut_map_fst_sublist (writeOk : List String → Bool) (items : List ReqItem) :
    ((enqueueOut writeOk items).map Prod.fst).Sublist (items.map ReqItem.pos) := by
  induction items with
  | nil => simp [enqueueOut]
  | cons r rest ih =>
    cases he : r.err with
    | some e =>
      simp only [enqueueOut, he, List.map]
      exact ih.cons r.pos
    | none =>
      simp only [enqueueOut, he, List.map]
      by_cases hw : writeOk r.row = true
      · simp only [if_pos hw, List.map]
        exact ih.cons₂ r.pos
      · simp only [if_neg hw, List.map]
        exact List.nil_sublist _

theorem sessLoop_deadline_true (off : Int) (sent : Nat) (tail : List StrTrRec)
    (es : List SessEvent) :
    sessLoop off sent (SessEvent.deadline true tail :: es) =
      some (tail.map (shiftTime off), off + computeTimeshiftOffset sent, SessExit.outer) := by
  simp [sessLoop]

theorem sessLoop_write_true (off : Int) (sent n : Nat) (es : List SessEvent) :
    sessLoop off sent (SessEvent.write n true :: es) = sessLoop off (sent + n) es := by
  simp [sessLoop]

theorem sessLoop_result_cons (off : Int) (sent : Nat) (rr : StrTrRec) (es : List SessEvent) :
    sessLoop off sent (SessEvent.result rr :: es) =
      (sessLoop off sent es).map (fun out => (shiftTime off rr :: out.1, out.2)) := by
  simp only [sessLoop]
  cases sessLoop off sent es with
  | none => rfl
  | some out => obtain ⟨es2, off2, x2⟩ := out; rfl

theorem computeTimeshiftOffset_nonneg (sent : Nat) : 0 ≤ computeTimeshiftOffset sent := by
  unfold computeTimeshiftOffset
  repeat' split
  all_goals first
  | exact le_refl 0
  | exact Int.natCast_nonneg _

/- ===================== Claim theorems ===================== -/

/-- C1: the claim states that after `imageRing.next` returns the valid entry
at position `i`, the cursor is `(i + 1) mod n` (ring size `n`), so successive
calls return positions `i`, `(i+1) mod n`.  The code instead advances the
cursor with `(i + 1) % (len(ir.all) - 1)`: on the all-valid ring of size 3
with cursor 1, `next` returns the entry at position 1 and leaves the cursor
at `(1+1) % 2 = 0` — not `(1+1) % 3 = 2` — so the following call returns the
entry at position 0 (`isrA`), not the one at position 2 (`isrC`). -/
theorem c1_cursor_skew :
    ringNext headNone 5 ⟨allValid3, 1⟩ = NextOut.image isrB ⟨allValid3, 0⟩
    ∧ ringNext headNone 5 ⟨allValid3, 0⟩ = NextOut.image isrA ⟨allValid3, 1⟩
    ∧ (1 + 1) % allValid3.length = 2
    ∧ isrA ≠ isrC := by
  refine ⟨rfl, rfl, rfl, ?_⟩
  decide

/-- C2: the claim states that `next` terminates after at most one pass even
when no entry is valid, evicting the ring and reporting a miss.  The code
does not: on a ring of two unchecked entries whose HEAD probes all fail, the
scan `i = (i + 1) % (len - 1) = (i + 1) % 1` stays at index 0 forever
(`fuelOut` for every fuel), and on a ring of exactly one invalid entry the
index update `% (1 - 1)` is an integer division by zero — a Go runtime
panic — so neither eviction nor a miss is reached. -/
theorem c2_next_diverges :
    (∀ fuel, ringNext headNone fuel ⟨allDead2, 0⟩ = NextOut.fuelOut)
    ∧ (∀ fuel, ringNext headNone (fuel + 1) ⟨allDead1, 0⟩ = NextOut.panic) := by
  constructor
  · intro fuel
    unfold ringNext
    rw [nextLoop_allDead2 fuel]
    rfl
  · intro fuel
    rfl

/-- C3: the claim states the first touch of an entry probes it and sets
`checked = true`, and a checked entry is never probed again.  The code never
assigns `checked`: under an all-OK HEAD oracle, `next` on a fresh two-entry
ring returns the first image with the touched entry left at
`checked = false` (first conjunct — the returned ring carries the flag), and
a further `next` on that ring under a now-failing oracle re-probes the same
entry (it would have been served from the stored `valid = true` had `checked`
been raised) and then scans forever. -/
theorem c3_checked_never_set :
    ringNext headOK 5 ⟨allUnchecked2, 0⟩ = NextOut.image isrA ⟨allTouched2, 0⟩
    ∧ (∀ ti ∈ allTouched2, ti.checked = false)
    ∧ (∀ fuel, ringNext headNone fuel ⟨allTouched2, 0⟩ = NextOut.fuelOut) := by
  refine ⟨rfl, by decide, ?_⟩
  intro fuel
  unfold ringNext
  cases fuel with
  | zero => rfl
  | succ n =>
    have h : nextLoop headNone (n + 1) 0 allTouched2 = nextLoop headNone n 0 allDead2 := rfl
    rw [h, nextLoop_allDead2 n]
    rfl

/-- C4: when the session deadline fires, `sessLoop` half-closes the send side
and drains every record still pending on the session's receive channel,
forwarding each shifted by the loop-entry (pre-rotation) `timeshiftOffset`;
the deferred `timeshiftOffset += computeTimeshiftOffset(bytesSent)` is applied
only after that drain, so for any run of forwarded results and successful
writes followed by the deadline, the whole tail appears shifted by the
pre-rotation offset and the new offset adds the audio duration of all bytes
sent. -/
theorem c4_rotation_drains_tail (off : Int) (sent : Nat) (pre : List SessEvent)
    (tail : List StrTrRec) (hb : pre.all benign = true) :
    sessLoop off sent (pre ++ [SessEvent.deadline true tail]) =
      some (emitsOf off pre ++ tail.map (shiftTime off),
            off + computeTimeshiftOffset (sent + writtenOf pre),
            SessExit.outer) := by
  induction pre generalizing sent with
  | nil =>
    simp only [List.nil_append, sessLoop_deadline_true, emitsOf, writtenOf, Nat.add_zero]
  | cons e rest ih =>
    cases e with
    | result rr =>
      have hb2 : rest.all benign = true := by simpa [benign] using hb
      rw [List.cons_append, sessLoop_result_cons, ih sent hb2]
      simp [emitsOf, writtenOf]
    | write n ok =>
      have hok : ok = true := by
        simp [List.all_cons, benign] at hb
        exact hb.1
      subst hok
      have hb2 : rest.all benign = true := by simpa [benign] using hb
      rw [List.cons_append, sessLoop_write_true, ih (sent + n) hb2]
      simp only [emitsOf, writtenOf]
      rw [Nat.add_assoc]
    | deadline ok tail2 => simp [benign] at hb
    | rxClosed => simp [benign] at hb
    | txClosed => simp [benign] at hb

/-- C4 witness: a concrete session — one forwarded result, one 5-byte write,
then the deadline with one pending tail word — drains the tail at the
pre-rotation offset 7 and only then adds the duration of 105 bytes. -/
theorem c4_rotation_drains_tail_witness :
    sessLoop 7 100 ([SessEvent.result rr0, SessEvent.write 5 true]
        ++ [SessEvent.deadline true [rr1]]) =
      some (emitsOf 7 [SessEvent.result rr0, SessEvent.write 5 true]
              ++ [rr1].map (shiftTime 7),
            7 + computeTimeshiftOffset (100 + writtenOf
              [SessEvent.result rr0, SessEvent.write 5 true]),
            SessExit.outer) :=
  c4_rotation_drains_tail 7 100 [SessEvent.result rr0, SessEvent.write 5 true] [rr1] rfl

/-- C5: `computeTimeshiftOffset` is non-negative on every (non-negative)
byte count, and therefore `timeshiftOffset` never decreases across a
`sessLoop` iteration: whatever events the session sees, the offset it ends
with is at least the offset it started with. -/
theorem c5_timeshift_monotone :
    (∀ sent, 0 ≤ computeTimeshiftOffset sent)
    ∧ (∀ (events : List SessEvent) (off : Int) (sent : Nat) out,
        sessLoop off sent events = some out → off ≤ out.2.1) := by
  refine ⟨computeTimeshiftOffset_nonneg, ?_⟩
  intro events
  induction events with
  | nil => intro off sent out h; simp [sessLoop] at h
  | cons e rest ih =>
    intro off sent out h
    cases e with
    | deadline ok tail =>
      cases ok with
      | true =>
        rw [sessLoop_deadline_true] at h
        obtain rfl := (Option.some.injEq _ _).mp h
        simpa using computeTimeshiftOffset_nonneg sent
      | false =>
        simp only [sessLoop, Bool.false_eq_true, if_false, Option.some.injEq] at h
        rw [← h]
        simpa using computeTimeshiftOffset_nonneg sent
    | result rr =>
      rw [sessLoop_result_cons] at h
      obtain ⟨out2, hrec, hmap⟩ := Option.map_eq_some'.mp h
      have := ih off sent out2 hrec
      rw [← hmap]
      simpa using this
    | rxClosed =>
      simp only [sessLoop, Option.some.injEq] at h
      rw [← h]
      simpa using computeTimeshiftOffset_nonneg sent
    | write n ok =>
      cases ok with
      | true =>
        rw [sessLoop_write_true] at h
        exact ih off (sent + n) out h
      | false =>
        simp only [sessLoop, Bool.false_eq_true, if_false, Option.some.injEq] at h
        rw [← h]
        simpa using computeTimeshiftOffset_nonneg sent
    | txClosed =>
      simp only [sessLoop, Option.some.injEq] at h
      rw [← h]
      simpa using computeTimeshiftOffset_nonneg sent

/-- C5 witness: the offset bound applied to a concrete one-event run that
ends the session with offset 3 unchanged, and non-negativity at 5 bytes. -/
theorem c5_timeshift_monotone_witness :
    0 ≤ computeTimeshiftOffset 5 ∧ (3 : Int) ≤ 3 :=
  ⟨c5_timeshift_monotone.1 5,
   c5_timeshift_monotone.2 [SessEvent.rxClosed] 3 0 ([], 3, SessExit.rxClosedErr) rfl⟩

/-- C6: the dispatcher enqueues each work item at its input position before
spawning its worker, and the consumer writes items in queue order — so
whatever `err`/`rec` outcome each concurrent worker produces (the `results`
function ranges over every scheduling), the input positions of the written
output records are strictly increasing: outputs appear in input order. -/
theorem c6_output_in_input_order (writeOk : List String → Bool)
    (results : Nat → Option String × List String) (n : Nat) :
    ((enqueueOut writeOk (dispatch results n)).map Prod.fst).Pairwise (· < ·) := by
  have hmap : (dispatch results n).map ReqItem.pos = List.range n := by
    simp [dispatch, List.map_map]
    exact List.map_id _
  have hs := enqueueOut_map_fst_sublist writeOk (dispatch results n)
  rw [hmap] at hs
  exact (List.pairwise_lt_range n).sublist hs

/-- C7: a record whose lookup ends in a non-critical error — the search call
fails, or it returns zero results — gets its `err` slot set by
`ImageRequest.Run` (the zero-results branch appends an empty URL to the
in-memory record but also sets `err`), and the consumer skips any item whose
`err` is set, writing nothing for it and continuing with the rest of the
queue. -/
theorem c7_noncritical_error_skips_row (head : String → Option HeadResponse) (fuel : Nat)
    (search : String → Except String (List ISR)) (cache : Cache)
    (c : Nat) (row : List String) (hc : c < row.length)
    (hmiss : cacheFind cache (row.get ⟨c, hc⟩) = none) :
    ((∀ e, search (row.get ⟨c, hc⟩) = Except.error e →
        runImageRequest head fuel search cache c row = some ⟨some e, row, cache⟩)
      ∧ (search (row.get ⟨c, hc⟩) = Except.ok [] →
        runImageRequest head fuel search cache c row =
          some ⟨some "no results", row ++ [""], cache⟩))
    ∧ (∀ (writeOk : List String → Bool) (item : ReqItem) (rest : List ReqItem),
        item.err.isSome = true →
        enqueueOut writeOk (item :: rest) = enqueueOut writeOk rest) := by
  constructor
  · constructor
    · intro e hse
      simp only [runImageRequest, dif_pos hc, cacheNext, hmiss, hse]
    · intro hse
      simp only [runImageRequest, dif_pos hc, cacheNext, hmiss, hse]
      rfl
  · intro writeOk item rest hsome
    obtain ⟨e, he⟩ := Option.isSome_iff_exists.mp hsome
    simp [enqueueOut, he]

/-- C7 witness: a concrete zero-result lookup on column 2 of a three-column
row with an empty cache sets the error and leaves the row unwritten by the
consumer (its `Run` output), and the declared skipping behaviour holds at a
concrete erroneous item. -/
theorem c7_noncritical_error_skips_row_witness :
    (runImageRequest headNone 1 (fun _ => Except.ok []) ([] : Cache) 2 ["a", "b", "w"] =
      some ⟨some "no results", ["a", "b", "w", ""], ([] : Cache)⟩)
    ∧ enqueueOut (fun _ => true) [⟨0, some "no results", ["a", "b", "w", ""]⟩] = [] :=
  ⟨(c7_noncritical_error_skips_row headNone 1 (fun _ => Except.ok []) ([] : Cache) 2
      ["a", "b", "w"] (by decide) rfl).1.2 rfl,
   (c7_noncritical_error_skips_row headNone 1 (fun _ => Except.ok []) ([] : Cache) 2
      ["a", "b", "w"] (by decide) rfl).2 (fun _ => true)
      ⟨0, some "no results", ["a", "b", "w", ""]⟩ [] rfl⟩

/-- C8: `discard` marks a probed link invalid (returns `true`) exactly when
the HEAD request fails, or its status is at least 400, or its Content-Type
does not contain "image"; concretely status 399 with `image/jpeg` is kept,
status 400 is discarded, `text/html` is discarded, and `image/jpeg` below
400 is kept. -/
theorem c8_discard_criteria :
    (∀ resp, dic.discard resp = true ↔
      (resp = none ∨ ∃ r, resp = some r ∧
        (400 ≤ r.statusCode ∨ strContains r.contentType "image" = false)))
    ∧ dic.discard (some ⟨399, "image/jpeg"⟩) = false
    ∧ dic.discard (some ⟨400, "image/jpeg"⟩) = true
    ∧ dic.discard (some ⟨200, "text/html"⟩) = true
    ∧ dic.discard (some ⟨200, "image/jpeg"⟩) = false := by
  refine ⟨?_, by decide, by decide, by decide, by decide⟩
  intro resp
  cases resp with
  | none => simp [dic.discard]
  | some r =>
    simp only [dic.discard]
    by_cases h : (400 : Int) ≤ r.statusCode
    · simp [h]
    · simp only [if_neg h]
      cases hb : strContains r.contentType "image" <;> simp [hb, h]

/-- C9: after `set(q, [])` stores an empty ring, the next `next(q)` call is a
miss (the ring answers nil on a zero-length body) and that call removes the
entry: the resulting cache has no binding for `q`. -/
theorem c9_set_empty_then_next_misses (c : Cache) (k : String)
    (head : String → Option HeadResponse) (fuel : Nat) :
    ∃ c2, cacheNext head fuel (cacheSet c k []) k = CacheNextOut.miss c2 ∧
      cacheFind c2 k = none := by
  refine ⟨cacheErase (cacheSet c k []) k, ?_, cacheFind_erase_self _ k⟩
  unfold cacheNext
  rw [show cacheSet c k [] = cacheUpdate c k ⟨[], 0⟩ from rfl,
    cacheFind_update_self c k ⟨[], 0⟩]
  rfl

/-- C10: the stream mapper `mapStreamSpeechResult` is total only when every
result has at least one alternative — it is defined (`isSome`) exactly on
non-empty alternative lists and panics (`none`, the unguarded
`Alternatives[0]`) on an empty one, and the panic propagates through the
listener's `mapStreamSpeechResults` loop — while the batch mapper
`mapSpeechResults` guards the empty list and returns an empty record list. -/
theorem c10_stream_mapper_partial :
    (∀ r : StreamingRecognitionResult,
        (mapStreamSpeechResult r).isSome = true ↔ r.alternatives ≠ [])
    ∧ (∀ b : Bool, mapStreamSpeechResult ⟨[], b⟩ = none)
    ∧ mapSpeechResults [] = []
    ∧ (∀ (pre post : List StreamingRecognitionResult) (b : Bool),
        mapStreamSpeechResults (pre ++ ⟨[], b⟩ :: post) = none) := by
  refine ⟨?_, fun b => rfl, rfl, ?_⟩
  · intro r
    cases halts : r.alternatives with
    | nil => simp [mapStreamSpeechResult, halts]
    | cons a rest => simp [mapStreamSpeechResult, halts]
  · intro pre post b
    induction pre with
    | nil => rfl
    | cons p rest ih =>
      simp only [List.cons_append, mapStreamSpeechResults, List.append_eq]
      rw [ih]
      cases mapStreamSpeechResult p <;> rfl
